import Mathlib

/-!
# Verification of the chunked file-upload protocol

Shallow embedding of the Go sources of `Zavr22/file-upload`:

* `server.go` — HTTP receiver: `registerFileHandler`, `uploadChunkHandler`,
  `completeUploadHandler`, `calculateChunkSize`, `updateFileInfoDB`.
* the sender (`src/unnamed/part_000`) — `main`, `sendFileChunks`, `sendChunk`,
  `completeUpload`.

Modelling conventions:

* Byte streams are `List Nat`.
* The SHA-256 hasher (`crypto/sha256`, an external collaborator in the spec)
  is an abstract parameter `digest : List Nat → String` producing the hex
  string that the Go code compares (`fmt.Sprintf "%x" (hasher.Sum nil)`).
* The server's working directory is a finite map from file name to contents
  (`Fs`); `os.Create` truncates, `os.Remove` deletes.  File creation and
  writes are assumed to succeed (no I/O fault model).
* The ledger file `fileInfoDB.json` is modelled separately as
  `Option (List FileMetadata)`: `none` means the file does not exist,
  `some l` means it exists and holds the JSON array `l`.
* `float64` arithmetic in `registerFileHandler` is modelled exactly by
  rational arithmetic with round-to-nearest-ties-to-even on a 53-bit
  significand (`f64round` below).
-/

/-! ## File system (the server's working directory) -/

abbrev Fs := List (String × List Nat)

/-- Read a file's contents; `none` when the file does not exist. -/
def fsRead : Fs → String → Option (List Nat)
  | [], _ => none
  | (n, d) :: fs, name => if n = name then some d else fsRead fs name

/-- Model of `os.Remove`: delete a file (a no-op when absent). -/
def fsRemove : Fs → String → Fs
  | [], _ => []
  | (n, d) :: fs, name =>
    if n = name then fsRemove fs name else (n, d) :: fsRemove fs name

/-- Model of `os.Create` followed by writing `data`: truncate/create the file. -/
def fsWrite (fs : Fs) (name : String) (data : List Nat) : Fs :=
  (name, data) :: fsRemove fs name

/-! ## Data model (`FileMetadata` in server.go, `FileInfo` in the sender) -/

structure FileMetadata where
  id : String
  fileName : String
  fileSize : Int
  fileHash : String
  chunkSize : Int
  totalChunks : Int
deriving DecidableEq, Repr

/-- The sender's registration payload (`FileInfo` in part_000). -/
structure FileInfo where
  fileName : String
  fileSize : Int
  fileHash : String
deriving DecidableEq, Repr

/-- The sender's view of the registration response. -/
structure RegistrationResponse where
  id : String
  chunkSize : Int
  totalChunks : Int
deriving DecidableEq, Repr

/-- An HTTP response: status code plus the `http.Error` message
(empty for a bare `WriteHeader StatusOK`). -/
structure Response where
  code : Nat
  msg : String
deriving DecidableEq, Repr

/-- Whole server state: the in-memory metadata table (`filesMetadata`),
the working directory, and the ledger file `fileInfoDB.json`. -/
structure ServerState where
  filesMetadata : List (String × FileMetadata)
  fs : Fs
  ledger : Option (List FileMetadata)
deriving DecidableEq, Repr

/-- Lookup in the metadata map (`filesMetadata[fileID]`). -/
def lookupMeta : List (String × FileMetadata) → String → Option FileMetadata
  | [], _ => none
  | (n, m) :: t, name => if n = name then some m else lookupMeta t name

/-! ## The float64 model

`registerFileHandler` computes
`int(math.Ceil(float64(metadata.FileSize) / float64(metadata.ChunkSize)))`.
We model IEEE-754 binary64 values as the rationals they denote, and each
operation as the exact rational result rounded to nearest (ties to even) on a
53-bit significand.  Overflow and subnormals are irrelevant at the magnitudes
that occur here and are not modelled. -/

/-- Fuel-driven binary logarithm on `Nat` (structural recursion, so that the
kernel can evaluate it): `log2fuel f n = ⌊log₂ n⌋` whenever `1 ≤ n ≤ f`. -/
def log2fuel : Nat → Nat → Nat
  | 0, _ => 0
  | f + 1, n => if n < 2 then 0 else log2fuel f (n / 2) + 1

/-- Computes `⌊log₂ n⌋` for `n ≥ 1` (0 at 0). -/
def natLog2 (n : Nat) : Nat := log2fuel n n

/-- Computes `⌊log₂ x⌋` for a positive rational.  Only the `1 ≤ x` branch is exercised
by the theorems below (every quantity rounded in this development is ≥ 1). -/
def ilog2 (x : ℚ) : ℤ :=
  if 1 ≤ x then (natLog2 ⌊x⌋.toNat : ℤ)
  else -((natLog2 (⌈x⁻¹⌉.toNat - 1) : ℤ) + 1)

/-- Round a rational to the nearest integer, ties to even. -/
def rne (x : ℚ) : ℤ :=
  let f := ⌊x⌋
  if x - f < 1 / 2 then f
  else if 1 / 2 < x - f then f + 1
  else if f % 2 = 0 then f else f + 1

/-- Round a nonnegative rational to the nearest IEEE-754 binary64 value
(round-to-nearest, ties-to-even, 53-bit significand). -/
def f64round (x : ℚ) : ℚ :=
  if x ≤ 0 then 0
  else
    let e : ℤ := ilog2 x
    ((rne (x * 2 ^ (52 - e)) : ℤ) : ℚ) * 2 ^ (e - 52)

/-- Model of `int(math.Ceil(float64(a) / float64(b)))` from `registerFileHandler`:
both operands are converted to binary64, divided with correct rounding, and
the ceiling is taken (exact for every binary64 value and integral result in
range, so it is the rational ceiling of the rounded quotient). -/
def goCeilDiv (a b : Int) : Int :=
  ⌈f64round (f64round (a : ℚ) / f64round (b : ℚ))⌉

/-! ## server.go -/

/-- Embeds `const minChunkSize = 100 * 1024`. -/
def minChunkSize : Int := 100 * 1024

/-- Embeds `const maxChunkSize = 4 * 1024 * 1024`. -/
def maxChunkSize : Int := 4 * 1024 * 1024

/-- Embeds `calculateChunkSize` (server.go 237–247).  `rnd` models the value of
`rand.Intn(maxChunkSize-minChunkSize+1)`, so callers assume
`0 ≤ rnd ≤ maxChunkSize - minChunkSize`. -/
def calculateChunkSize (fileSize : Int) (rnd : Int) : Int :=
  let randomChunkSize := rnd + minChunkSize
  if randomChunkSize > fileSize then fileSize else randomChunkSize

/-- Chunk-file name `fmt.Sprintf("%s_part_%d", fileID, num)`. -/
def chunkFileName (fileID : String) (num : Int) : String :=
  fileID ++ "_part_" ++ toString num

/-- Model of `strconv.Atoi`: optional sign followed by at least one
decimal digit. -/
def digitsToNat? : List Char → Option Nat
  | [] => none
  | l => l.foldl (fun acc c =>
      match acc with
      | none => none
      | some n => if c.isDigit then some (n * 10 + (c.toNat - 48)) else none)
      (some 0)

def atoi (s : String) : Option Int :=
  match s.data with
  | '-' :: rest => (digitsToNat? rest).map (fun n => -(n : Int))
  | '+' :: rest => (digitsToNat? rest).map (fun n => (n : Int))
  | l => (digitsToNat? l).map (fun n => (n : Int))

/-- Embeds `registerFileHandler` (server.go 51–80), after routing and JSON decoding:
`body = none` models a malformed payload.  `newID` stands for the
`generateUniqueID()` result and `rnd` for the `rand.Intn` draw inside
`calculateChunkSize`.  Returns the new state, the response, and the metadata
echoed to the sender. -/
def registerFileHandler (s : ServerState) (body : Option FileInfo)
    (newID : String) (rnd : Int) : ServerState × Response × Option FileMetadata :=
  match body with
  | none => (s, ⟨400, "invalid JSON"⟩, none)
  | some info =>
    let chunkSize := calculateChunkSize info.fileSize rnd
    let totalChunks := goCeilDiv info.fileSize chunkSize
    let m : FileMetadata :=
      { id := newID, fileName := info.fileName, fileSize := info.fileSize,
        fileHash := info.fileHash, chunkSize := chunkSize, totalChunks := totalChunks }
    ({ s with filesMetadata := (newID, m) :: s.filesMetadata }, ⟨200, ""⟩, some m)

/-- Embeds `uploadChunkHandler` (server.go 82–135), after routing: `fileID` and
`chunkNumber` are the path segments, `chunkHash` the `Chunk-Hash` header
(`""` when absent), `body` the request body.  The chunk file is created and
the body streamed into it while hashing; only afterwards is the digest
compared, and on mismatch the handler merely responds 400 — the stored chunk
file is left in place. -/
def uploadChunkHandler (digest : List Nat → String) (s : ServerState)
    (fileID chunkNumber chunkHash : String) (body : List Nat) :
    ServerState × Response :=
  if chunkHash = "" then (s, ⟨400, "Chunk hash is missing"⟩)
  else
    match atoi chunkNumber with
    | none => (s, ⟨400, "Chunk hash number is missing"⟩)
    | some num =>
      let s' : ServerState := { s with fs := fsWrite s.fs (chunkFileName fileID num) body }
      if digest body ≠ chunkHash then (s', ⟨400, "Chunk hash mismatch"⟩)
      else (s', ⟨200, ""⟩)

/-- The reassembly loop of `completeUploadHandler` (server.go 176–202):
iterate `i` from `1` to `totalChunks`; a missing chunk aborts with its index,
otherwise the chunk is appended to the destination file and removed.
`n` counts the remaining iterations. -/
def foldChunks (fileID finalFileName : String) : Fs → Int → Nat → Fs × Option Int
  | fs, _, 0 => (fs, none)
  | fs, i, n + 1 =>
    match fsRead fs (chunkFileName fileID i) with
    | none => (fs, some i)
    | some data =>
      let cur := (fsRead fs finalFileName).getD []
      let fs1 := fsWrite fs finalFileName (cur ++ data)
      let fs2 := fsRemove fs1 (chunkFileName fileID i)
      foldChunks fileID finalFileName fs2 (i + 1) n

/-- Embeds `updateFileInfoDB` (server.go 260–288).  Faithful to the Go source: when
`ioutil.ReadFile` fails (ledger file absent) the function unmarshals the nil
data — a no-op — and returns the read error; when the read succeeds the data
is *never* unmarshalled (the `json.Unmarshal` call sits only inside the
read-error branch), so `fileInfos` is still empty when `metadata` is appended
and the file is rewritten as the one-element array `[metadata]`.  Returns the
new ledger contents and whether an error was returned. -/
def updateFileInfoDB (metadata : FileMetadata)
    (ledger : Option (List FileMetadata)) : Option (List FileMetadata) × Bool :=
  match ledger with
  | none => (none, true)
  | some _ => (some [metadata], false)

/-- Embeds `completeUploadHandler` (server.go 137–231), after routing: looks up the
metadata (400 if absent), creates — truncating — the destination file
`final_<fileName>` *before* any chunk check, then folds the chunks in order,
verifies the whole-file digest against the registered hash (400 on mismatch),
and finally appends to the ledger via `updateFileInfoDB` (500 on error). -/
def completeUploadHandler (digest : List Nat → String) (s : ServerState)
    (fileID : String) : ServerState × Response :=
  match lookupMeta s.filesMetadata fileID with
  | none => (s, ⟨400, "File metadata not found"⟩)
  | some metadata =>
    let finalFileName := "final_" ++ metadata.fileName
    let fs0 := fsWrite s.fs finalFileName []
    if fileID ≠ metadata.id then ({ s with fs := fs0 }, ⟨500, "id are not the same"⟩)
    else
      match foldChunks fileID finalFileName fs0 1 metadata.totalChunks.toNat with
      | (fs', some _) => ({ s with fs := fs' }, ⟨500, "Chunk file does not exist"⟩)
      | (fs', none) =>
        let finalData := (fsRead fs' finalFileName).getD []
        if digest finalData ≠ metadata.fileHash then
          ({ s with fs := fs' }, ⟨400, "Final file hash mismatch"⟩)
        else
          match updateFileInfoDB metadata s.ledger with
          | (led', true) => ({ s with fs := fs', ledger := led' }, ⟨500, "Error updating fileInfoDB"⟩)
          | (led', false) => ({ s with fs := fs', ledger := led' }, ⟨200, ""⟩)

/-! ## The sender (src/unnamed/part_000) -/

/-- The chunking performed by `sendFileChunks` (part_000 112–147): repeatedly
read up to `chunkSize` bytes; a read of zero bytes ends the loop (also
immediately when `chunkSize = 0`).  Fuel-driven so the kernel can evaluate it;
`file.length` fuel always suffices. -/
def chunkifyAux : Nat → Nat → List Nat → List (List Nat)
  | 0, _, _ => []
  | _ + 1, _, [] => []
  | fuel + 1, c, l =>
    if c = 0 then [] else l.take c :: chunkifyAux fuel c (l.drop c)

def chunkify (c : Nat) (l : List Nat) : List (List Nat) := chunkifyAux l.length c l

/-- One network request issued by the sender. -/
inductive Request where
  | register (info : FileInfo)
  | uploadChunk (fileID : String) (chunkNumber : Int) (chunkHash : String) (body : List Nat)
  | completeUpload (fileID : String)
deriving DecidableEq, Repr

/-- The chunk-upload requests of `sendFileChunks`: chunk `i` carries its
payload and the sender-computed digest, numbered from 1. -/
def chunkRequests (digest : List Nat → String) (fileID : String) :
    List (List Nat) → Int → List Request
  | [], _ => []
  | d :: rest, i =>
    Request.uploadChunk fileID i (digest d) d :: chunkRequests digest fileID rest (i + 1)

/-- Model of the sender's `main` (part_000 27–77): the requests the
orchestrator issues when every network call succeeds, and whether it runs to
the completion call (`false` = `os.Exit 1` before any request).  The
zero-size check (part_000 47–50) fires before any network request; `reg` is
the registration response the server would return and is unused in that
case. -/
def senderMain (digest : List Nat → String) (file : List Nat) (fileName : String)
    (reg : RegistrationResponse) : List Request × Bool :=
  if (file.length : Int) = 0 then ([], false)
  else
    let info : FileInfo := ⟨fileName, (file.length : Int), digest file⟩
    (Request.register info ::
      (chunkRequests digest reg.id (chunkify reg.chunkSize.toNat file) 1 ++
        [Request.completeUpload reg.id]), true)

/-! ## End-to-end scenario (sender + server) -/

/-- Composition `uploadAll digest s fid chunks i`: the sender transmits `chunks` one at a
time as chunks `i, i+1, …` (each with its own digest, as `sendFileChunks`
does) against the server state `s`; a non-OK response aborts the transfer
(`false`), as in `sendChunk` (part_000 171–175). -/
def uploadAll (digest : List Nat → String) :
    ServerState → String → List (List Nat) → Int → ServerState × Bool
  | s, _, [], _ => (s, true)
  | s, fid, d :: rest, i =>
    match uploadChunkHandler digest s fid (toString i) (digest d) d with
    | (s', r) =>
      if r.code = 200 then uploadAll digest s' fid rest (i + 1) else (s', false)

/-- A full transfer: the sender hashes `file`, registers it, sends every
chunk in increasing sequence order, and — only if all were accepted — signals
completion.  Result: the final server state and `some` completion response,
or `none` when the sender aborted before calling `Complete`. -/
def scenario (digest : List Nat → String) (s₀ : ServerState) (file : List Nat)
    (fileName newID : String) (rnd : Int) : ServerState × Option Response :=
  let info : FileInfo := ⟨fileName, (file.length : Int), digest file⟩
  match registerFileHandler s₀ (some info) newID rnd with
  | (s₁, _, some m) =>
    match uploadAll digest s₁ m.id (chunkify m.chunkSize.toNat file) 1 with
    | (s₂, true) =>
      match completeUploadHandler digest s₂ m.id with
      | (s₃, r) => (s₃, some r)
    | (s₂, false) => (s₂, none)
  | (s₁, _, none) => (s₁, none)

/-- A concrete stand-in digest used by the closed witness instantiations
(the abstract `digest` parameter ranges over it). -/
def hash0 (l : List Nat) : String :=
  String.mk ('D' :: l.map (fun n => if n % 2 = 0 then 'a' else 'b'))

/-- Concrete metadata record used by closed instantiations below: the upload
identity `"1"` for a 3-byte file `"f"` transferred as a single chunk. -/
def mW : FileMetadata := ⟨"1", "f", 3, hash0 [1, 2, 3], 3, 1⟩

/-- A concrete metadata record whose registered hash matches no payload,
used to drive the final-hash-mismatch branch. -/
def mBad : FileMetadata := ⟨"1", "f", 1, "BAD", 1, 1⟩

/-- A concrete ledger record distinct from `mW`, standing for a transfer
completed earlier. -/
def rOld : FileMetadata := ⟨"0", "g", 1, "x", 1, 1⟩

/-! ## Basic lemmas about the file-system model -/

theorem fsRead_fsRemove (fs : Fs) (x name : String) :
    fsRead (fsRemove fs x) name = if name = x then none else fsRead fs name := by
  induction fs with
  | nil => simp [fsRemove, fsRead]
  | cons hd tl ih =>
    obtain ⟨n, d⟩ := hd
    simp only [fsRemove, fsRead]
    split_ifs with h1 h2 h3 <;> simp_all [fsRead]

theorem fsRead_fsWrite_self (fs : Fs) (n : String) (d : List Nat) :
    fsRead (fsWrite fs n d) n = some d := by
  simp [fsWrite, fsRead]

theorem fsRead_fsWrite_ne (fs : Fs) (n n' : String) (d : List Nat) (h : n' ≠ n) :
    fsRead (fsWrite fs n d) n' = fsRead fs n' := by
  rw [fsWrite]
  simp only [fsRead]
  rw [if_neg (fun hh => h hh.symm), fsRead_fsRemove, if_neg h]

theorem lookupMeta_cons_self (t : List (String × FileMetadata)) (k : String) (m : FileMetadata) :
    lookupMeta ((k, m) :: t) k = some m := by
  simp [lookupMeta]

/-! ## Lemmas about the binary logarithm and rounding -/

theorem log2fuel_spec : ∀ f n, 1 ≤ n → n ≤ f →
    2 ^ log2fuel f n ≤ n ∧ n < 2 ^ (log2fuel f n + 1) := by
  intro f
  induction f with
  | zero => omega
  | succ f ih =>
    intro n h1 h2
    by_cases hn : n < 2
    · have : n = 1 := by omega
      simp [log2fuel, hn, this]
    · have hrec := ih (n / 2) (by omega) (by omega)
      simp only [log2fuel, if_neg hn]
      rcases hrec with ⟨hlo, hhi⟩
      rw [pow_succ, pow_succ] at *
      omega

theorem natLog2_spec (n : Nat) (h : 1 ≤ n) :
    2 ^ natLog2 n ≤ n ∧ n < 2 ^ (natLog2 n + 1) :=
  log2fuel_spec n n h le_rfl

theorem natLog2_le_of_lt_pow {n k : Nat} (h1 : 1 ≤ n) (h2 : n < 2 ^ (k + 1)) :
    natLog2 n ≤ k := by
  rcases natLog2_spec n h1 with ⟨hlo, _⟩
  by_contra hgt
  have : 2 ^ (k + 1) ≤ 2 ^ natLog2 n := Nat.pow_le_pow_right (by norm_num) (by omega)
  omega

theorem ilog2_intCast (n : ℤ) (h : 1 ≤ n) : ilog2 (n : ℚ) = (natLog2 n.toNat : ℤ) := by
  rw [ilog2, if_pos (by exact_mod_cast h), Int.floor_intCast]

theorem ilog2_spec (x : ℚ) (hx : 1 ≤ x) :
    (2 : ℚ) ^ ilog2 x ≤ x ∧ x < 2 ^ (ilog2 x + 1) := by
  rw [ilog2, if_pos hx]
  have hfl : 1 ≤ ⌊x⌋ := by exact_mod_cast Int.le_floor.mpr (by exact_mod_cast hx)
  set n : ℕ := ⌊x⌋.toNat with hn
  have hn1 : 1 ≤ n := by omega
  have hcast : (n : ℤ) = ⌊x⌋ := Int.toNat_of_nonneg (by omega)
  rcases natLog2_spec n hn1 with ⟨hlo, hhi⟩
  constructor
  · calc (2:ℚ) ^ (natLog2 n : ℤ) = ((2 ^ natLog2 n : ℕ) : ℚ) := by
          rw [zpow_natCast]; push_cast; ring
      _ ≤ (n : ℚ) := by exact_mod_cast hlo
      _ ≤ x := by
          have := Int.floor_le x
          rw [← hcast] at this
          exact_mod_cast this
  · have hx1 : x < (⌊x⌋ : ℚ) + 1 := Int.lt_floor_add_one x
    calc x < (⌊x⌋ : ℚ) + 1 := hx1
      _ ≤ ((2 ^ (natLog2 n + 1) : ℕ) : ℚ) := by
          rw [← hcast]; push_cast; exact_mod_cast by omega
      _ = (2:ℚ) ^ ((natLog2 n : ℤ) + 1) := by
          rw [show ((natLog2 n : ℤ) + 1) = ((natLog2 n + 1 : ℕ) : ℤ) by push_cast; ring,
            zpow_natCast]
          push_cast; ring

theorem rne_intCast (m : ℤ) : rne (m : ℚ) = m := by
  simp [rne, Int.floor_intCast]

theorem abs_rne_sub_le (x : ℚ) : |(rne x : ℚ) - x| ≤ 1 / 2 := by
  have h0 : (⌊x⌋ : ℚ) ≤ x := Int.floor_le x
  have h1 : x < (⌊x⌋ : ℚ) + 1 := Int.lt_floor_add_one x
  rw [rne]
  split_ifs with ha hb hc <;>
    · rw [abs_le]; push_cast; constructor <;> linarith

theorem f64round_err (x : ℚ) (hx : 0 < x) :
    |f64round x - x| ≤ 2 ^ (ilog2 x - 53) := by
  have hne : ¬ x ≤ 0 := not_le.mpr hx
  have h2 : (2 : ℚ) ≠ 0 := by norm_num
  simp only [f64round, if_neg hne]
  set e := ilog2 x with he
  set s := x * 2 ^ (52 - e) with hs
  have hxs : x = s * 2 ^ (e - 52) := by
    rw [hs, mul_assoc, ← zpow_add₀ h2]
    norm_num
  have hpos : (0 : ℚ) < 2 ^ (e - 52) := zpow_pos (by norm_num) _
  calc |(rne s : ℚ) * 2 ^ (e - 52) - x|
      = |(rne s : ℚ) - s| * 2 ^ (e - 52) := by
        rw [show (rne s : ℚ) * 2 ^ (e - 52) - x = ((rne s : ℚ) - s) * 2 ^ (e - 52) by
          rw [hxs]; ring, abs_mul, abs_of_pos hpos]
    _ ≤ (1 / 2) * 2 ^ (e - 52) := by
        exact mul_le_mul_of_nonneg_right (abs_rne_sub_le s) (le_of_lt hpos)
    _ = 2 ^ (e - 53) := by
        rw [show e - 53 = (-1) + (e - 52) by ring, zpow_add₀ h2]
        norm_num

theorem f64round_intCast (n : ℤ) (h1 : 0 < n) (h2 : n < 2 ^ 53) :
    f64round (n : ℚ) = n := by
  have hx : (0 : ℚ) < n := by exact_mod_cast h1
  have hne : ¬ (n : ℚ) ≤ 0 := not_le.mpr hx
  simp only [f64round, if_neg hne]
  rw [ilog2_intCast n h1]
  set k := natLog2 n.toNat with hk
  have hn1 : 1 ≤ n.toNat := by omega
  have hk52 : k ≤ 52 := by
    apply natLog2_le_of_lt_pow hn1
    norm_num at h2 ⊢
    omega
  rw [show (52 : ℤ) - (k : ℤ) = ((52 - k : ℕ) : ℤ) by omega, zpow_natCast,
    show (n : ℚ) * (2 : ℚ) ^ (52 - k) = ((n * 2 ^ (52 - k) : ℤ) : ℚ) by push_cast; ring,
    rne_intCast]
  push_cast
  rw [mul_assoc,
    show ((2 : ℚ) ^ (52 - k) : ℚ) = (2 : ℚ) ^ ((52 - k : ℕ) : ℤ) from (zpow_natCast 2 (52 - k)).symm,
    ← zpow_add₀ (by norm_num : (2 : ℚ) ≠ 0),
    show ((52 - k : ℕ) : ℤ) + ((k : ℤ) - 52) = 0 by omega]
  norm_num

theorem ceil_f64round_div (a b : ℤ) (hb : 0 < b) (hba : b ≤ a) (ha : a < 2 ^ 53) :
    ⌈f64round ((a : ℚ) / (b : ℚ))⌉ = ⌈(a : ℚ) / (b : ℚ)⌉ := by
  have hbQ : (0 : ℚ) < b := by exact_mod_cast hb
  have hbne : (b : ℚ) ≠ 0 := ne_of_gt hbQ
  set q : ℚ := (a : ℚ) / b with hq
  have hq1 : 1 ≤ q := (one_le_div hbQ).mpr (by exact_mod_cast hba)
  have hq0 : 0 < q := zero_lt_one.trans_le hq1
  have hqb : q * b = a := div_mul_cancel₀ _ hbne
  set e := ilog2 q with he
  have h2e : (2 : ℚ) ^ e ≤ q := (ilog2_spec q hq1).1
  have herr := abs_le.mp (f64round_err q hq0)
  have hp53 : (0 : ℚ) < 2 ^ (53 : ℤ) := zpow_pos (by norm_num) _
  have herrb : (2 : ℚ) ^ (e - 53) * b < 1 := by
    have hstep : (2 : ℚ) ^ e * b ≤ a := by
      calc (2 : ℚ) ^ e * b ≤ q * b := mul_le_mul_of_nonneg_right h2e (le_of_lt hbQ)
        _ = a := hqb
    have ha' : (a : ℚ) < 2 ^ (53 : ℤ) := by
      rw [show ((53 : ℤ)) = ((53 : ℕ) : ℤ) by norm_num, zpow_natCast]
      exact_mod_cast ha
    calc (2 : ℚ) ^ (e - 53) * b = (2 : ℚ) ^ e * b / 2 ^ (53 : ℤ) := by
          rw [zpow_sub₀ (by norm_num : (2 : ℚ) ≠ 0)]; ring
      _ ≤ (a : ℚ) / 2 ^ (53 : ℤ) := (div_le_div_iff_of_pos_right hp53).mpr hstep
      _ < 1 := (div_lt_one hp53).mpr ha'
  by_cases hdvd : b ∣ a
  · obtain ⟨k, hk⟩ := hdvd
    have hapos : 0 < a := lt_of_lt_of_le hb hba
    have hkpos : 0 < k := by nlinarith
    have hk53 : k < 2 ^ 53 := by nlinarith
    have hqk : q = (k : ℚ) := by
      rw [hq, hk]
      push_cast
      exact mul_div_cancel_left₀ _ hbne
    rw [hqk, f64round_intCast k hkpos hk53]
  · set k := ⌊q⌋ with hkdef
    have hk0 : (k : ℚ) ≤ q := Int.floor_le q
    have hk1 : q < k + 1 := Int.lt_floor_add_one q
    set r := a - b * k with hrdef
    have hr_eq : q - k = (r : ℚ) / b := by
      rw [hrdef, hq]
      push_cast
      field_simp
    have hbk : b * k ≤ a := by
      have h1 : (k : ℚ) * b ≤ a := (le_div_iff₀ hbQ).mp hk0
      have h2 : ((b * k : ℤ) : ℚ) ≤ (a : ℚ) := by push_cast; linarith [mul_comm (k : ℚ) (b : ℚ)]
      exact_mod_cast h2
    have hr0 : 0 < r := by
      rcases lt_or_eq_of_le (show 0 ≤ r by omega) with h | h
      · exact h
      · exfalso
        exact hdvd ⟨k, by omega⟩
    have hrb : r < b := by
      have h1 : q < ((k + 1 : ℤ) : ℚ) := by push_cast; exact hk1
      have h2 : (a : ℚ) < ((k + 1 : ℤ) : ℚ) * b := (div_lt_iff₀ hbQ).mp (hq ▸ h1)
      have h3 : a < (k + 1) * b := by exact_mod_cast h2
      rw [hrdef]
      nlinarith [h3]
    have hql : (k : ℚ) + 1 / b ≤ q := by
      have h1 : (1 : ℚ) / b ≤ (r : ℚ) / b := by
        apply (div_le_div_iff_of_pos_right hbQ).mpr
        exact_mod_cast hr0
      linarith [hr_eq ▸ h1]
    have hqu : q ≤ (k : ℚ) + 1 - 1 / b := by
      have h1 : (r : ℚ) / b ≤ ((b - 1 : ℤ) : ℚ) / b := by
        apply (div_le_div_iff_of_pos_right hbQ).mpr
        exact_mod_cast by omega
      have h2 : ((b - 1 : ℤ) : ℚ) / b = 1 - 1 / b := by
        push_cast
        field_simp
      linarith [hr_eq ▸ h1, h2 ▸ h1]
    have herr2 : (2 : ℚ) ^ (e - 53) < 1 / b := (lt_div_iff₀ hbQ).mpr herrb
    have hb1 : (0 : ℚ) < 1 / b := by positivity
    have hflo : (k : ℚ) < f64round q := by nlinarith [herr.1, hql, herr2]
    have hfhi : f64round q < (k : ℚ) + 1 := by nlinarith [herr.2, hqu, herr2]
    have hceil1 : ⌈f64round q⌉ = k + 1 := by
      rw [Int.ceil_eq_iff]
      constructor
      · push_cast; linarith
      · push_cast; linarith
    have hceil2 : ⌈q⌉ = k + 1 := by
      rw [Int.ceil_eq_iff]
      constructor
      · push_cast; linarith [hql, hb1]
      · push_cast; linarith
    rw [hceil1, hceil2]

theorem goCeilDiv_eq_ceil (a b : ℤ) (hb : 0 < b) (hba : b ≤ a) (ha : a < 2 ^ 53)
    (hb53 : b < 2 ^ 53) : goCeilDiv a b = ⌈(a : ℚ) / (b : ℚ)⌉ := by
  rw [goCeilDiv, f64round_intCast a (lt_of_lt_of_le hb hba) ha,
    f64round_intCast b hb hb53]
  exact ceil_f64round_div a b hb hba ha

theorem goCeilDiv_self (a : ℤ) (h1 : 0 < a) (h2 : a < 2 ^ 53) : goCeilDiv a a = 1 := by
  rw [goCeilDiv_eq_ceil a a h1 le_rfl h2 h2,
    div_self (show (a : ℚ) ≠ 0 from by exact_mod_cast ne_of_gt h1)]
  exact Int.ceil_one

theorem natLog2_eq_of {n k : ℕ} (h1 : 2 ^ k ≤ n) (h2 : n < 2 ^ (k + 1)) :
    natLog2 n = k := by
  have hn1 : 1 ≤ n := le_trans (Nat.two_pow_pos k) h1
  rcases natLog2_spec n hn1 with ⟨hlo, hhi⟩
  by_contra hne
  rcases Nat.lt_or_ge (natLog2 n) k with h | h
  · have : 2 ^ (natLog2 n + 1) ≤ 2 ^ k := Nat.pow_le_pow_right (by norm_num) (by omega)
    omega
  · have : 2 ^ (k + 1) ≤ 2 ^ natLog2 n := Nat.pow_le_pow_right (by norm_num) (by omega)
    omega

/-- Value `float64(2^54 + 1)` rounds down to `2^54`: the significand
`2^52 + 1/4` is rounded to `2^52` (fraction `1/4 < 1/2`). -/
theorem f64round_two_pow_54_add_one :
    f64round ((2 ^ 54 + 1 : ℤ) : ℚ) = 2 ^ 54 := by
  have hne : ¬ ((2 ^ 54 + 1 : ℤ) : ℚ) ≤ 0 := by push_cast; norm_num
  simp only [f64round, if_neg hne]
  rw [ilog2_intCast _ (by norm_num)]
  have h54 : (2 : ℤ) ^ 54 + 1 = ((2 ^ 54 + 1 : ℕ) : ℤ) := by push_cast
  have htn : ((2 : ℤ) ^ 54 + 1).toNat = 2 ^ 54 + 1 := by
    rw [h54, Int.toNat_natCast]
  rw [htn]
  rw [natLog2_eq_of (n := 2 ^ 54 + 1) (k := 54) (by norm_num) (by norm_num)]
  rw [show ((52 : ℤ) - ((54 : ℕ) : ℤ)) = -2 by norm_num,
    show ((((54 : ℕ) : ℤ)) - 52) = 2 by norm_num]
  have hpow2 : (2 : ℚ) ^ (2 : ℤ) = 4 := by
    rw [show (2 : ℤ) = ((2 : ℕ) : ℤ) by rfl, zpow_natCast]; norm_num
  have hpowneg : (2 : ℚ) ^ (-2 : ℤ) = 1 / 4 := by
    rw [zpow_neg, hpow2]; norm_num
  rw [hpowneg, show ((2 ^ 54 + 1 : ℤ) : ℚ) * (1 / 4) = 2 ^ 52 + 1 / 4 by push_cast; ring]
  have hfloor : ⌊(2 ^ 52 + 1 / 4 : ℚ)⌋ = 2 ^ 52 := by
    rw [Int.floor_eq_iff]
    constructor <;> push_cast <;> norm_num
  have hrne : rne (2 ^ 52 + 1 / 4 : ℚ) = 2 ^ 52 := by
    simp only [rne, hfloor]
    rw [if_pos (by push_cast; norm_num)]
  rw [hrne, hpow2]
  push_cast
  ring

/-- The float64 pipeline at `(2^54+1, 131072)` yields `2^37`. -/
theorem goCeilDiv_two_pow_54_add_one :
    goCeilDiv (2 ^ 54 + 1) 131072 = 2 ^ 37 := by
  rw [goCeilDiv, f64round_two_pow_54_add_one,
    f64round_intCast 131072 (by norm_num) (by norm_num)]
  rw [show (2 : ℚ) ^ 54 / ((131072 : ℤ) : ℚ) = ((2 ^ 37 : ℤ) : ℚ) by push_cast; norm_num]
  rw [f64round_intCast (2 ^ 37) (by norm_num) (by norm_num), Int.ceil_intCast]

/-- The exact integer ceiling at the same input is `2^37 + 1`. -/
theorem exact_ceil_two_pow_54_add_one :
    ⌈((2 ^ 54 + 1 : ℤ) : ℚ) / ((131072 : ℤ) : ℚ)⌉ = 2 ^ 37 + 1 := by
  rw [Int.ceil_eq_iff]
  refine ⟨?_, ?_⟩
  · push_cast
    rw [lt_div_iff₀ (by norm_num : (0 : ℚ) < 131072)]
    norm_num
  · push_cast
    rw [div_le_iff₀ (by norm_num : (0 : ℚ) < 131072)]
    norm_num

theorem calculateChunkSize_bounds (fileSize rnd : Int) (h1 : 0 < fileSize)
    (h3 : 0 ≤ rnd) :
    0 < calculateChunkSize fileSize rnd ∧ calculateChunkSize fileSize rnd ≤ fileSize := by
  simp only [calculateChunkSize, minChunkSize]
  split_ifs with h <;> omega

/-- C5 (counterexample).  At `fileSize = 2^54 + 1` with the admissible
`rand.Intn` draw that selects `131072` (which lies in
`[minChunkSize, maxChunkSize]`), the chunk size is `131072`, but
`int(math.Ceil(float64(fileSize)/float64(chunkSize)))` evaluates to `2^37`
while the exact integer ceiling is `2^37 + 1`: `float64(2^54+1)` already
rounds to `2^54`. -/
theorem C5_float_ceiling_cex :
    (0 : ℤ) ≤ 131072 - minChunkSize ∧
    131072 - minChunkSize ≤ maxChunkSize - minChunkSize ∧
    calculateChunkSize (2 ^ 54 + 1) (131072 - minChunkSize) = 131072 ∧
    goCeilDiv (2 ^ 54 + 1) 131072 = 2 ^ 37 ∧
    ⌈((2 ^ 54 + 1 : ℤ) : ℚ) / ((131072 : ℤ) : ℚ)⌉ = 2 ^ 37 + 1 ∧
    goCeilDiv (2 ^ 54 + 1) 131072 ≠ ⌈((2 ^ 54 + 1 : ℤ) : ℚ) / ((131072 : ℤ) : ℚ)⌉ := by
  refine ⟨by norm_num [minChunkSize], by norm_num [minChunkSize, maxChunkSize],
    by norm_num [calculateChunkSize, minChunkSize], goCeilDiv_two_pow_54_add_one,
    exact_ceil_two_pow_54_add_one, ?_⟩
  rw [goCeilDiv_two_pow_54_add_one, exact_ceil_two_pow_54_add_one]
  omega

/-- C5 (amended).  For every registration whose `fileSize` is positive and
below `2^53`, the stored and returned `totalChunks` equals the exact integer
ceiling of `fileSize / chunkSize`; the float64 round trip is exact in that
range.  (The original claim over the full int64 range fails, see the
counterexample.) -/
theorem C5_totalChunks_exact (s : ServerState) (info : FileInfo)
    (newID : String) (rnd : Int)
    (h1 : 0 < info.fileSize) (h2 : info.fileSize < 2 ^ 53) (h3 : 0 ≤ rnd) :
    ∃ m, (registerFileHandler s (some info) newID rnd).2.2 = some m ∧
      m.chunkSize = calculateChunkSize info.fileSize rnd ∧
      m.totalChunks = ⌈(info.fileSize : ℚ) / (m.chunkSize : ℚ)⌉ := by
  refine ⟨_, rfl, rfl, ?_⟩
  obtain ⟨hb0, hble⟩ := calculateChunkSize_bounds info.fileSize rnd h1 h3
  exact goCeilDiv_eq_ceil _ _ hb0 hble h2 (lt_of_le_of_lt hble h2)

theorem C5_totalChunks_exact_witness :
    (0 : ℤ) < (⟨"f", 10, "h"⟩ : FileInfo).fileSize ∧
    (⟨"f", 10, "h"⟩ : FileInfo).fileSize < 2 ^ 53 ∧
    (0 : ℤ) ≤ 0 ∧
    ∃ m, (registerFileHandler ⟨[], [], none⟩ (some ⟨"f", 10, "h"⟩) "1" 0).2.2 = some m ∧
      m.chunkSize = calculateChunkSize (⟨"f", 10, "h"⟩ : FileInfo).fileSize 0 ∧
      m.totalChunks = ⌈((⟨"f", 10, "h"⟩ : FileInfo).fileSize : ℚ) / (m.chunkSize : ℚ)⌉ :=
  ⟨by norm_num, by norm_num, le_rfl,
    C5_totalChunks_exact ⟨[], [], none⟩ ⟨"f", 10, "h"⟩ "1" 0 (by norm_num) (by norm_num) le_rfl⟩

/-- C6.  For every positive `fileSize` and admissible random draw, the chunk
size satisfies `1 ≤ chunkSize ≤ fileSize`; whenever the selected size
`rnd + minChunkSize` exceeds `fileSize` the result is clamped to exactly
`fileSize`; and a file smaller than the configured minimum gets
`totalChunks = 1`, i.e. becomes exactly one chunk. -/
theorem C6_chunkSize_bounds (fileSize rnd : Int) (h1 : 0 < fileSize) (h3 : 0 ≤ rnd) :
    1 ≤ calculateChunkSize fileSize rnd ∧
    calculateChunkSize fileSize rnd ≤ fileSize ∧
    (fileSize < minChunkSize + rnd → calculateChunkSize fileSize rnd = fileSize) ∧
    (fileSize < minChunkSize → goCeilDiv fileSize (calculateChunkSize fileSize rnd) = 1) := by
  obtain ⟨hb0, hble⟩ := calculateChunkSize_bounds fileSize rnd h1 h3
  refine ⟨hb0, hble, ?_, ?_⟩
  · intro h
    simp only [minChunkSize] at h
    simp only [calculateChunkSize, minChunkSize]
    split_ifs with hx
    · rfl
    · omega
  · intro h
    simp only [minChunkSize] at h
    have hcs : calculateChunkSize fileSize rnd = fileSize := by
      simp only [calculateChunkSize, minChunkSize]
      split_ifs with hx
      · rfl
      · omega
    rw [hcs]
    refine goCeilDiv_self fileSize h1 ?_
    norm_num
    omega

theorem C6_chunkSize_bounds_witness :
    (0 : ℤ) < 10 ∧ (0 : ℤ) ≤ 0 ∧
    (1 ≤ calculateChunkSize 10 0 ∧
      calculateChunkSize 10 0 ≤ 10 ∧
      ((10 : ℤ) < minChunkSize + 0 → calculateChunkSize 10 0 = 10) ∧
      ((10 : ℤ) < minChunkSize → goCeilDiv 10 (calculateChunkSize 10 0) = 1)) :=
  ⟨by norm_num, le_rfl, C6_chunkSize_bounds 10 0 (by norm_num) le_rfl⟩

/-! ## Branch characterisations of `completeUploadHandler` -/

theorem complete_eq_of_no_meta (digest : List Nat → String) (s : ServerState) (fid : String)
    (hmeta : lookupMeta s.filesMetadata fid = none) :
    completeUploadHandler digest s fid = (s, ⟨400, "File metadata not found"⟩) := by
  simp only [completeUploadHandler, hmeta]

theorem complete_eq_of_id_ne (digest : List Nat → String) (s : ServerState) (fid : String)
    (m : FileMetadata) (hmeta : lookupMeta s.filesMetadata fid = some m)
    (hid : fid ≠ m.id) :
    completeUploadHandler digest s fid =
      ({ s with fs := fsWrite s.fs ("final_" ++ m.fileName) [] }, ⟨500, "id are not the same"⟩) := by
  simp only [completeUploadHandler, hmeta]
  rw [if_pos hid]

theorem complete_eq_of_fold_missing (digest : List Nat → String) (s : ServerState)
    (fid : String) (m : FileMetadata) (fs' : Fs) (i : Int)
    (hmeta : lookupMeta s.filesMetadata fid = some m) (hid : fid = m.id)
    (hfold : foldChunks fid ("final_" ++ m.fileName)
      (fsWrite s.fs ("final_" ++ m.fileName) []) 1 m.totalChunks.toNat = (fs', some i)) :
    completeUploadHandler digest s fid =
      ({ s with fs := fs' }, ⟨500, "Chunk file does not exist"⟩) := by
  simp only [completeUploadHandler, hmeta, hfold]
  rw [if_neg (by simp [hid])]

theorem complete_eq_of_hash_mismatch (digest : List Nat → String) (s : ServerState)
    (fid : String) (m : FileMetadata) (fs' : Fs)
    (hmeta : lookupMeta s.filesMetadata fid = some m) (hid : fid = m.id)
    (hfold : foldChunks fid ("final_" ++ m.fileName)
      (fsWrite s.fs ("final_" ++ m.fileName) []) 1 m.totalChunks.toNat = (fs', none))
    (hdig : digest ((fsRead fs' ("final_" ++ m.fileName)).getD []) ≠ m.fileHash) :
    completeUploadHandler digest s fid =
      ({ s with fs := fs' }, ⟨400, "Final file hash mismatch"⟩) := by
  simp only [completeUploadHandler, hmeta, hfold]
  rw [if_neg (by simp [hid]), if_pos hdig]

theorem complete_eq_of_ledger_missing (digest : List Nat → String) (s : ServerState)
    (fid : String) (m : FileMetadata) (fs' : Fs)
    (hmeta : lookupMeta s.filesMetadata fid = some m) (hid : fid = m.id)
    (hfold : foldChunks fid ("final_" ++ m.fileName)
      (fsWrite s.fs ("final_" ++ m.fileName) []) 1 m.totalChunks.toNat = (fs', none))
    (hdig : digest ((fsRead fs' ("final_" ++ m.fileName)).getD []) = m.fileHash)
    (hledg : s.ledger = none) :
    completeUploadHandler digest s fid =
      ({ s with fs := fs', ledger := none }, ⟨500, "Error updating fileInfoDB"⟩) := by
  simp only [completeUploadHandler, hmeta, hfold, updateFileInfoDB, hledg]
  rw [if_neg (by simp [hid]), if_neg (by simp [hdig])]

theorem complete_eq_of_success (digest : List Nat → String) (s : ServerState)
    (fid : String) (m : FileMetadata) (fs' : Fs) (l : List FileMetadata)
    (hmeta : lookupMeta s.filesMetadata fid = some m) (hid : fid = m.id)
    (hfold : foldChunks fid ("final_" ++ m.fileName)
      (fsWrite s.fs ("final_" ++ m.fileName) []) 1 m.totalChunks.toNat = (fs', none))
    (hdig : digest ((fsRead fs' ("final_" ++ m.fileName)).getD []) = m.fileHash)
    (hledg : s.ledger = some l) :
    completeUploadHandler digest s fid =
      ({ s with fs := fs', ledger := some [m] }, ⟨200, ""⟩) := by
  simp only [completeUploadHandler, hmeta, hfold, updateFileInfoDB, hledg]
  rw [if_neg (by simp [hid]), if_neg (by simp [hdig])]

/-- Inversion: a completion that passed the whole-file digest check (it
answered 200, or failed only afterwards at the ledger update) must have found
the metadata, matched the id, folded every chunk, and verified the digest of
the destination file; on a 200 answer the ledger was read and rewritten as
the single-record array `[m]`. -/
theorem complete_pass_inv (digest : List Nat → String) (s : ServerState) (fid : String)
    (s' : ServerState) (resp : Response)
    (hrun : completeUploadHandler digest s fid = (s', resp))
    (hpass : resp.code = 200 ∨ resp.msg = "Error updating fileInfoDB") :
    ∃ m fs', lookupMeta s.filesMetadata fid = some m ∧ fid = m.id ∧
      foldChunks fid ("final_" ++ m.fileName)
        (fsWrite s.fs ("final_" ++ m.fileName) []) 1 m.totalChunks.toNat = (fs', none) ∧
      digest ((fsRead fs' ("final_" ++ m.fileName)).getD []) = m.fileHash ∧
      s'.fs = fs' ∧ s'.filesMetadata = s.filesMetadata ∧
      (resp.code = 200 → ∃ l, s.ledger = some l ∧ s'.ledger = some [m]) := by
  rcases hname : lookupMeta s.filesMetadata fid with _ | m
  · rw [complete_eq_of_no_meta digest s fid hname] at hrun
    obtain ⟨h1, h2⟩ := Prod.mk.injEq .. ▸ hrun
    rw [← h2] at hpass
    simp at hpass
  · by_cases hid : fid = m.id
    · obtain ⟨⟨fs', res⟩, hfold⟩ :
        (∃ p, foldChunks fid ("final_" ++ m.fileName)
          (fsWrite s.fs ("final_" ++ m.fileName) []) 1 m.totalChunks.toNat = p) := ⟨_, rfl⟩
      cases res with
      | some i =>
        rw [complete_eq_of_fold_missing digest s fid m fs' i hname hid hfold] at hrun
        obtain ⟨h1, h2⟩ := Prod.mk.injEq .. ▸ hrun
        rw [← h2] at hpass
        simp at hpass
      | none =>
        by_cases hdig : digest ((fsRead fs' ("final_" ++ m.fileName)).getD []) = m.fileHash
        · rcases hledg : s.ledger with _ | l
          · rw [complete_eq_of_ledger_missing digest s fid m fs' hname hid hfold hdig hledg]
              at hrun
            obtain ⟨h1, h2⟩ := Prod.mk.injEq .. ▸ hrun
            refine ⟨m, fs', rfl, hid, hfold, hdig, by rw [← h1], by rw [← h1], ?_⟩
            intro hc
            rw [← h2] at hc
            simp at hc
          · rw [complete_eq_of_success digest s fid m fs' l hname hid hfold hdig hledg] at hrun
            obtain ⟨h1, h2⟩ := Prod.mk.injEq .. ▸ hrun
            exact ⟨m, fs', rfl, hid, hfold, hdig, by rw [← h1], by rw [← h1],
              fun _ => ⟨l, rfl, by rw [← h1]⟩⟩
        · rw [complete_eq_of_hash_mismatch digest s fid m fs' hname hid hfold hdig] at hrun
          obtain ⟨h1, h2⟩ := Prod.mk.injEq .. ▸ hrun
          rw [← h2] at hpass
          simp at hpass
    · rw [complete_eq_of_id_ne digest s fid m hname hid] at hrun
      obtain ⟨h1, h2⟩ := Prod.mk.injEq .. ▸ hrun
      rw [← h2] at hpass
      simp at hpass

/-! ## Lemmas about the reassembly loop -/

/-- As long as no chunk-file name collides with the destination name, the
destination file stays present throughout the reassembly loop. -/
theorem foldChunks_final_some (fid fin : String)
    (halias : ∀ j : Int, 1 ≤ j → chunkFileName fid j ≠ fin) :
    ∀ (n : Nat) (fs : Fs) (i : Int), 1 ≤ i → (fsRead fs fin).isSome = true →
      (fsRead (foldChunks fid fin fs i n).1 fin).isSome = true := by
  intro n
  induction n with
  | zero =>
    intro fs i _ h
    simpa [foldChunks] using h
  | succ n ih =>
    intro fs i hi h
    simp only [foldChunks]
    cases hread : fsRead fs (chunkFileName fid i) with
    | none => simpa using h
    | some data =>
      refine ih _ (i + 1) (by omega) ?_
      rw [fsRead_fsRemove, if_neg (fun hh => halias i hi hh.symm), fsRead_fsWrite_self]
      rfl

/-- The reassembly loop never creates a file other than the destination:
a name that is absent and differs from the destination stays absent. -/
theorem foldChunks_absent_preserved (fid fin : String) :
    ∀ (n : Nat) (fs : Fs) (i : Int) (name : String), name ≠ fin →
      fsRead fs name = none →
      fsRead (foldChunks fid fin fs i n).1 name = none := by
  intro n
  induction n with
  | zero =>
    intro fs i name _ h
    simpa [foldChunks] using h
  | succ n ih =>
    intro fs i name hne h
    simp only [foldChunks]
    cases hread : fsRead fs (chunkFileName fid i) with
    | none => simpa using h
    | some data =>
      refine ih _ (i + 1) name hne ?_
      rw [fsRead_fsRemove]
      split_ifs with hx
      · rfl
      · rw [fsRead_fsWrite_ne _ _ _ _ hne, h]

/-- After a reassembly loop that found every chunk, all the chunk storage
units it consumed have been deleted. -/
theorem foldChunks_deletes (fid fin : String)
    (halias : ∀ j : Int, 1 ≤ j → chunkFileName fid j ≠ fin) :
    ∀ (n : Nat) (fs : Fs) (i : Int) (fs' : Fs), 1 ≤ i →
      foldChunks fid fin fs i n = (fs', none) →
      ∀ j : Int, i ≤ j → j < i + n → fsRead fs' (chunkFileName fid j) = none := by
  intro n
  induction n with
  | zero =>
    intro fs i fs' _ _ j hj1 hj2
    omega
  | succ n ih =>
    intro fs i fs' hi hfold j hj1 hj2
    simp only [foldChunks] at hfold
    cases hread : fsRead fs (chunkFileName fid i) with
    | none =>
      rw [hread] at hfold
      simp at hfold
    | some data =>
      rw [hread] at hfold
      simp only [] at hfold
      rcases eq_or_lt_of_le hj1 with heq | hlt
      · subst heq
        have h2 : fsRead (fsRemove
            (fsWrite fs fin ((fsRead fs fin).getD [] ++ data)) (chunkFileName fid i))
            (chunkFileName fid i) = none := by
          rw [fsRead_fsRemove, if_pos rfl]
        have h3 := foldChunks_absent_preserved fid fin n _ (i + 1)
          (chunkFileName fid i) (halias i hi) h2
        rw [hfold] at h3
        simpa using h3
      · exact ih _ _ _ (by omega) hfold j (by omega) (by omega)

/-- A `Complete` call whose first chunk storage unit is absent (and whose
`totalChunks` is at least 1) truncates the destination file and then fails
with the missing-chunk error. -/
theorem complete_missing_first_chunk (digest : List Nat → String) (s : ServerState)
    (fid : String) (m : FileMetadata)
    (hmeta : lookupMeta s.filesMetadata fid = some m) (hid : fid = m.id)
    (htot : 1 ≤ m.totalChunks)
    (halias1 : chunkFileName fid 1 ≠ "final_" ++ m.fileName)
    (hchunk : fsRead s.fs (chunkFileName fid 1) = none) :
    completeUploadHandler digest s fid =
      ({ s with fs := fsWrite s.fs ("final_" ++ m.fileName) [] },
        ⟨500, "Chunk file does not exist"⟩) := by
  obtain ⟨nn, hnn⟩ : ∃ nn, m.totalChunks.toNat = nn + 1 :=
    ⟨m.totalChunks.toNat - 1, by omega⟩
  have hread : fsRead (fsWrite s.fs ("final_" ++ m.fileName) [])
      (chunkFileName fid 1) = none := by
    rw [fsRead_fsWrite_ne _ _ _ _ halias1, hchunk]
  have hfold : foldChunks fid ("final_" ++ m.fileName)
      (fsWrite s.fs ("final_" ++ m.fileName) []) 1 m.totalChunks.toNat =
      (fsWrite s.fs ("final_" ++ m.fileName) [], some 1) := by
    rw [hnn]
    simp only [foldChunks, hread]
  exact complete_eq_of_fold_missing digest s fid m _ 1 hmeta hid hfold

/-! ## Lemmas about the sender loop against the server -/

theorem uploadChunkHandler_preserves (digest : List Nat → String) (s : ServerState)
    (fid ns ch : String) (b : List Nat) :
    ((uploadChunkHandler digest s fid ns ch b).1).filesMetadata = s.filesMetadata ∧
    ((uploadChunkHandler digest s fid ns ch b).1).ledger = s.ledger := by
  simp only [uploadChunkHandler]
  split
  · exact ⟨rfl, rfl⟩
  · split
    · exact ⟨rfl, rfl⟩
    · split
      · exact ⟨rfl, rfl⟩
      · exact ⟨rfl, rfl⟩

theorem uploadAll_preserves (digest : List Nat → String) :
    ∀ (chunks : List (List Nat)) (s : ServerState) (fid : String) (i : Int),
      ((uploadAll digest s fid chunks i).1).filesMetadata = s.filesMetadata ∧
      ((uploadAll digest s fid chunks i).1).ledger = s.ledger := by
  intro chunks
  induction chunks with
  | nil =>
    intro s fid i
    exact ⟨rfl, rfl⟩
  | cons d rest ih =>
    intro s fid i
    simp only [uploadAll]
    cases hh : uploadChunkHandler digest s fid (toString i) (digest d) d with
    | mk s1 r =>
      have hm := uploadChunkHandler_preserves digest s fid (toString i) (digest d) d
      rw [hh] at hm
      simp only []
      split_ifs with hcode
      · obtain ⟨h1, h2⟩ := ih s1 fid (i + 1)
        exact ⟨h1.trans hm.1, h2.trans hm.2⟩
      · exact ⟨hm.1, hm.2⟩

/-- Whenever a completion passes the whole-file digest check, the destination
file holds bytes whose digest equals the registered whole-file hash. -/
theorem complete_pass_digest (digest : List Nat → String) (s s' : ServerState)
    (fid : String) (m : FileMetadata) (resp : Response)
    (hmeta : lookupMeta s.filesMetadata fid = some m)
    (halias : ∀ j : Int, 1 ≤ j → chunkFileName fid j ≠ "final_" ++ m.fileName)
    (hrun : completeUploadHandler digest s fid = (s', resp))
    (hpass : resp.code = 200 ∨ resp.msg = "Error updating fileInfoDB") :
    ∃ asm, fsRead s'.fs ("final_" ++ m.fileName) = some asm ∧ digest asm = m.fileHash := by
  obtain ⟨m', fs', hmeta', hid, hfold, hdig, hfs, hfm, _⟩ :=
    complete_pass_inv digest s fid s' resp hrun hpass
  have hmm : m = m' := by
    have h := hmeta.symm.trans hmeta'
    exact (Option.some.injEq .. ▸ h)
  subst hmm
  have h0 : (fsRead (fsWrite s.fs ("final_" ++ m.fileName) [])
      ("final_" ++ m.fileName)).isSome = true := by
    rw [fsRead_fsWrite_self]
    rfl
  have hsome := foldChunks_final_some fid _ halias m.totalChunks.toNat _ 1 le_rfl h0
  rw [hfold] at hsome
  simp only [] at hsome
  obtain ⟨asm, hasm⟩ := Option.isSome_iff_exists.mp hsome
  refine ⟨asm, by rw [hfs]; exact hasm, ?_⟩
  rw [hasm] at hdig
  simpa using hdig

/-- C1.  End-to-end: when a full transfer (register, then every chunk sent in
increasing order and accepted, then `Complete`) passes the whole-file digest
check — it answered 200, or failed only afterwards at the ledger append — the
reassembled destination file has the same digest as the original file, and
under collision-freedom of the hash (injectivity) its bytes are exactly the
original bytes.  The alias hypothesis records that no chunk-file name
collides with the destination name (ids are numeric timestamps in Go, so
they never start with "final_"). -/
theorem C1_digest_preserved (digest : List Nat → String) (s₀ : ServerState)
    (file : List Nat) (fileName newID : String) (rnd : Int)
    (halias : ∀ j : Int, 1 ≤ j → chunkFileName newID j ≠ "final_" ++ fileName)
    (s' : ServerState) (resp : Response)
    (hrun : scenario digest s₀ file fileName newID rnd = (s', some resp))
    (hpass : resp.code = 200 ∨ resp.msg = "Error updating fileInfoDB") :
    ∃ asm, fsRead s'.fs ("final_" ++ fileName) = some asm ∧
      digest asm = digest file ∧ (Function.Injective digest → asm = file) := by
  simp only [scenario, registerFileHandler] at hrun
  split at hrun
  next s₂ heq =>
    obtain ⟨h1, h2⟩ := Prod.mk.injEq .. ▸ hrun
    have h2' : (completeUploadHandler digest s₂ newID).2 = resp :=
      Option.some.injEq .. ▸ h2
    have hc : completeUploadHandler digest s₂ newID = (s', resp) := by
      rw [← h1, ← h2']
    have hpres := (uploadAll_preserves digest
      (chunkify (calculateChunkSize (file.length : Int) rnd).toNat file)
      { s₀ with filesMetadata := (newID, ⟨newID, fileName, (file.length : Int), digest file,
          calculateChunkSize (file.length : Int) rnd,
          goCeilDiv (file.length : Int) (calculateChunkSize (file.length : Int) rnd)⟩) ::
          s₀.filesMetadata }
      newID 1).1
    rw [heq] at hpres
    simp only [] at hpres
    have hmeta : lookupMeta s₂.filesMetadata newID =
        some ⟨newID, fileName, (file.length : Int), digest file,
          calculateChunkSize (file.length : Int) rnd,
          goCeilDiv (file.length : Int) (calculateChunkSize (file.length : Int) rnd)⟩ := by
      rw [hpres]
      exact lookupMeta_cons_self _ _ _
    obtain ⟨asm, ha1, ha2⟩ := complete_pass_digest digest s₂ s' newID _ resp hmeta
      halias hc hpass
    exact ⟨asm, ha1, ha2, fun hinj => hinj ha2⟩
  next s₂ heq =>
    exact absurd (Prod.mk.injEq .. ▸ hrun).2 (by simp)

/-- No chunk-file name of upload id `"1"` equals the destination name
`final_f` (they differ in their first character). -/
theorem chunkName_ne_final_1f : ∀ j : Int, 1 ≤ j → chunkFileName "1" j ≠ "final_" ++ "f" := by
  intro j _ heq
  simp only [chunkFileName] at heq
  have hd := congrArg String.data heq
  rw [String.data_append, String.data_append, String.data_append] at hd
  rw [show ("1" : String).data = ['1'] from rfl,
    show ("_part_" : String).data = ['_', 'p', 'a', 'r', 't', '_'] from rfl,
    show ("final_" : String).data = ['f', 'i', 'n', 'a', 'l', '_'] from rfl,
    show ("f" : String).data = ['f'] from rfl] at hd
  simp at hd

/-- A fully successful 3-byte transfer, evaluated concretely. -/
theorem scenario_eval_1f : scenario hash0 ⟨[], [], some []⟩ [1, 2, 3] "f" "1" 0 =
    (⟨[("1", mW)], [("final_f", [1, 2, 3])], some [mW]⟩, some ⟨200, ""⟩) := by
  have hcs : calculateChunkSize 3 0 = 3 := by norm_num [calculateChunkSize, minChunkSize]
  have hgc : goCeilDiv 3 3 = 1 := goCeilDiv_self 3 (by norm_num) (by norm_num)
  simp only [scenario, registerFileHandler]
  rw [show (([1, 2, 3] : List Nat).length : Int) = 3 from rfl]
  rw [hcs, hgc]
  decide

theorem C1_digest_preserved_witness :
    (∀ j : Int, 1 ≤ j → chunkFileName "1" j ≠ "final_" ++ "f") ∧
    (scenario hash0 ⟨[], [], some []⟩ [1, 2, 3] "f" "1" 0 =
      ((⟨[("1", mW)], [("final_f", [1, 2, 3])], some [mW]⟩ : ServerState),
        some ⟨200, ""⟩)) ∧
    ∃ asm, fsRead (⟨[("1", mW)], [("final_f", [1, 2, 3])], some [mW]⟩ : ServerState).fs
        ("final_" ++ "f") = some asm ∧
      hash0 asm = hash0 [1, 2, 3] ∧ (Function.Injective hash0 → asm = [1, 2, 3]) :=
  ⟨chunkName_ne_final_1f, scenario_eval_1f,
    C1_digest_preserved hash0 ⟨[], [], some []⟩ [1, 2, 3] "f" "1" 0
      chunkName_ne_final_1f _ ⟨200, ""⟩ scenario_eval_1f (Or.inl rfl)⟩

/-- C2 (code bug).  Every successful completion leaves the durable ledger
holding exactly the one-element array `[m]`: `updateFileInfoDB` never
unmarshals the previously stored records (the `json.Unmarshal` call sits in
the read-error branch), so whatever the ledger held before is erased rather
than appended to. -/
theorem C2_ledger_overwritten (digest : List Nat → String) (s s' : ServerState)
    (fid : String) (resp : Response)
    (hrun : completeUploadHandler digest s fid = (s', resp))
    (hok : resp.code = 200) :
    ∃ m, lookupMeta s.filesMetadata fid = some m ∧ s'.ledger = some [m] := by
  obtain ⟨m, fs', hmeta, _, _, _, _, _, hled⟩ :=
    complete_pass_inv digest s fid s' resp hrun (Or.inl hok)
  obtain ⟨l, _, hl2⟩ := hled hok
  exact ⟨m, hmeta, hl2⟩

theorem C2_ledger_overwritten_witness :
    (completeUploadHandler hash0 ⟨[("1", mW)], [("1_part_1", [1, 2, 3])], some [rOld]⟩ "1" =
      ((⟨[("1", mW)], [("final_f", [1, 2, 3])], some [mW]⟩ : ServerState), ⟨200, ""⟩)) ∧
    rOld ∉ [mW] ∧
    ∃ m, lookupMeta ([("1", mW)] : List (String × FileMetadata)) "1" = some m ∧
      (⟨[("1", mW)], [("final_f", [1, 2, 3])], some [mW]⟩ : ServerState).ledger = some [m] :=
  ⟨by decide, by decide,
    C2_ledger_overwritten hash0 ⟨[("1", mW)], [("1_part_1", [1, 2, 3])], some [rOld]⟩
      _ "1" ⟨200, ""⟩ (by decide) rfl⟩

/-- C4 (code bug).  A completion whose chunks and digest are all in order
still fails with a server error when `fileInfoDB.json` does not exist:
`updateFileInfoDB` returns `ReadFile`'s error instead of treating the missing
file as an empty ledger. -/
theorem C4_missing_ledger_fatal :
    (completeUploadHandler hash0 ⟨[("1", mW)], [("1_part_1", [1, 2, 3])], none⟩ "1").2 =
      ⟨500, "Error updating fileInfoDB"⟩ ∧
    (completeUploadHandler hash0 ⟨[("1", mW)], [("1_part_1", [1, 2, 3])], none⟩ "1").2.code ≠
      200 ∧
    updateFileInfoDB mW none = (none, true) := by
  decide

/-- C8.  After a first successful `Complete` (which deleted every chunk
storage unit), a second `Complete` for the same id fails with the
missing-chunk error rather than reporting success. -/
theorem C8_second_complete_fails (digest : List Nat → String) (s s₁ s₂ : ServerState)
    (fid : String) (m : FileMetadata) (r₁ r₂ : Response)
    (hmeta : lookupMeta s.filesMetadata fid = some m)
    (htot : 1 ≤ m.totalChunks)
    (halias : ∀ j : Int, 1 ≤ j → chunkFileName fid j ≠ "final_" ++ m.fileName)
    (h1 : completeUploadHandler digest s fid = (s₁, r₁)) (hok : r₁.code = 200)
    (h2 : completeUploadHandler digest s₁ fid = (s₂, r₂)) :
    r₂ = ⟨500, "Chunk file does not exist"⟩ ∧ r₂.code ≠ 200 := by
  obtain ⟨m', fs', hmeta', hid, hfold, hdig, hfs, hfm, _⟩ :=
    complete_pass_inv digest s fid s₁ r₁ h1 (Or.inl hok)
  have hmm : m = m' := by
    have h := hmeta.symm.trans hmeta'
    exact (Option.some.injEq .. ▸ h)
  subst hmm
  have hdel : fsRead fs' (chunkFileName fid 1) = none := by
    refine foldChunks_deletes fid _ halias m.totalChunks.toNat _ 1 fs' le_rfl hfold
      1 le_rfl ?_
    omega
  have hmeta2 : lookupMeta s₁.filesMetadata fid = some m := by
    rw [hfm]
    exact hmeta
  have hchunk1 : fsRead s₁.fs (chunkFileName fid 1) = none := by
    rw [hfs]
    exact hdel
  have hsecond := complete_missing_first_chunk digest s₁ fid m hmeta2 hid htot
    (halias 1 le_rfl) hchunk1
  rw [hsecond] at h2
  have hr := ((Prod.mk.injEq .. ▸ h2).2).symm
  exact ⟨hr, by rw [hr]; decide⟩

theorem C8_second_complete_fails_witness :
    lookupMeta ([("1", mW)] : List (String × FileMetadata)) "1" = some mW ∧
    (1 : Int) ≤ mW.totalChunks ∧
    (completeUploadHandler hash0 ⟨[("1", mW)], [("1_part_1", [1, 2, 3])], some []⟩ "1" =
      ((⟨[("1", mW)], [("final_f", [1, 2, 3])], some [mW]⟩ : ServerState), ⟨200, ""⟩)) ∧
    (completeUploadHandler hash0 ⟨[("1", mW)], [("final_f", [1, 2, 3])], some [mW]⟩ "1" =
      ((⟨[("1", mW)], [("final_f", [])], some [mW]⟩ : ServerState),
        ⟨500, "Chunk file does not exist"⟩)) ∧
    ((⟨500, "Chunk file does not exist"⟩ : Response) = ⟨500, "Chunk file does not exist"⟩ ∧
      (⟨500, "Chunk file does not exist"⟩ : Response).code ≠ 200) :=
  ⟨by decide, by decide, by decide, by decide,
    C8_second_complete_fails hash0
      ⟨[("1", mW)], [("1_part_1", [1, 2, 3])], some []⟩
      ⟨[("1", mW)], [("final_f", [1, 2, 3])], some [mW]⟩
      ⟨[("1", mW)], [("final_f", [])], some [mW]⟩
      "1" mW ⟨200, ""⟩ ⟨500, "Chunk file does not exist"⟩
      (by decide) (by decide) chunkName_ne_final_1f (by decide) rfl (by decide)⟩

/-- C9.  `Complete` creates (truncating) the destination file before any
chunk check: a call that fails with a missing chunk — in particular a repeat
`Complete` after a successful one — leaves the destination file truncated to
zero bytes instead of leaving the previous on-disk state unchanged. -/
theorem C9_truncates_destination (digest : List Nat → String) (s s' : ServerState)
    (fid : String) (m : FileMetadata) (resp : Response)
    (hmeta : lookupMeta s.filesMetadata fid = some m) (hid : fid = m.id)
    (htot : 1 ≤ m.totalChunks)
    (halias1 : chunkFileName fid 1 ≠ "final_" ++ m.fileName)
    (hchunk : fsRead s.fs (chunkFileName fid 1) = none)
    (hrun : completeUploadHandler digest s fid = (s', resp)) :
    resp = ⟨500, "Chunk file does not exist"⟩ ∧
    fsRead s'.fs ("final_" ++ m.fileName) = some [] := by
  have h := complete_missing_first_chunk digest s fid m hmeta hid htot halias1 hchunk
  rw [h] at hrun
  obtain ⟨h1, h2⟩ := Prod.mk.injEq .. ▸ hrun
  refine ⟨h2.symm, ?_⟩
  rw [← h1]
  exact fsRead_fsWrite_self _ _ _

theorem C9_truncates_destination_witness :
    lookupMeta ([("1", mW)] : List (String × FileMetadata)) "1" = some mW ∧
    "1" = mW.id ∧ (1 : Int) ≤ mW.totalChunks ∧
    chunkFileName "1" 1 ≠ "final_" ++ mW.fileName ∧
    fsRead ([("final_f", [9, 9])] : Fs) (chunkFileName "1" 1) = none ∧
    (completeUploadHandler hash0 ⟨[("1", mW)], [("final_f", [9, 9])], none⟩ "1" =
      ((⟨[("1", mW)], [("final_f", [])], none⟩ : ServerState),
        ⟨500, "Chunk file does not exist"⟩)) ∧
    ((⟨500, "Chunk file does not exist"⟩ : Response) = ⟨500, "Chunk file does not exist"⟩ ∧
      fsRead (⟨[("1", mW)], [("final_f", [])], none⟩ : ServerState).fs
        ("final_" ++ mW.fileName) = some []) :=
  ⟨by decide, by decide, by decide, by decide, by decide, by decide,
    C9_truncates_destination hash0 ⟨[("1", mW)], [("final_f", [9, 9])], none⟩
      ⟨[("1", mW)], [("final_f", [])], none⟩ "1" mW ⟨500, "Chunk file does not exist"⟩
      (by decide) (by decide) (by decide) (by decide) (by decide) (by decide)⟩

/-- C3 (counterexample).  On a chunk-digest mismatch the handler answers 400
but does NOT delete or invalidate the stored chunk: the chunk file is still
present afterwards, holding exactly the received payload, indistinguishable
from a verified chunk.  (The registration table is indeed untouched.) -/
theorem C3_mismatch_cex :
    (uploadChunkHandler hash0 ⟨[], [], none⟩ "1" "1" "zz" [0]).2 =
      ⟨400, "Chunk hash mismatch"⟩ ∧
    fsRead (uploadChunkHandler hash0 ⟨[], [], none⟩ "1" "1" "zz" [0]).1.fs "1_part_1" =
      some [0] ∧
    (uploadChunkHandler hash0 ⟨[], [], none⟩ "1" "1" "zz" [0]).1.filesMetadata = [] := by
  decide

/-- C3 (amended).  On a digest mismatch `ReceiveChunk` signals an integrity
failure (status 400, "Chunk hash mismatch") and leaves the registration
metadata untouched, but the stored chunk unit for `(id, sequenceNumber)` is
left on disk with the received bytes — it is neither deleted nor marked
unusable. -/
theorem C3_mismatch_keeps_chunk (digest : List Nat → String) (s : ServerState)
    (fid numStr claimed : String) (body : List Nat) (num : Int)
    (hnum : atoi numStr = some num) (hne : claimed ≠ "")
    (hmis : digest body ≠ claimed) :
    uploadChunkHandler digest s fid numStr claimed body =
      ({ s with fs := fsWrite s.fs (chunkFileName fid num) body },
        ⟨400, "Chunk hash mismatch"⟩) ∧
    fsRead (uploadChunkHandler digest s fid numStr claimed body).1.fs
      (chunkFileName fid num) = some body ∧
    (uploadChunkHandler digest s fid numStr claimed body).1.filesMetadata =
      s.filesMetadata := by
  have h : uploadChunkHandler digest s fid numStr claimed body =
      ({ s with fs := fsWrite s.fs (chunkFileName fid num) body },
        ⟨400, "Chunk hash mismatch"⟩) := by
    simp only [uploadChunkHandler, hnum]
    rw [if_neg hne, if_pos hmis]
  refine ⟨h, ?_, ?_⟩
  · rw [h]
    exact fsRead_fsWrite_self _ _ _
  · rw [h]

theorem C3_mismatch_keeps_chunk_witness :
    atoi "2" = some 2 ∧ ("xx" : String) ≠ "" ∧ hash0 [7] ≠ "xx" ∧
    (uploadChunkHandler hash0 ⟨[], [], none⟩ "9" "2" "xx" [7] =
      ({ (⟨[], [], none⟩ : ServerState) with
          fs := fsWrite ([] : Fs) (chunkFileName "9" 2) [7] },
        ⟨400, "Chunk hash mismatch"⟩) ∧
      fsRead (uploadChunkHandler hash0 ⟨[], [], none⟩ "9" "2" "xx" [7]).1.fs
        (chunkFileName "9" 2) = some [7] ∧
      (uploadChunkHandler hash0 ⟨[], [], none⟩ "9" "2" "xx" [7]).1.filesMetadata = []) :=
  ⟨by decide, by decide, by decide,
    C3_mismatch_keeps_chunk hash0 ⟨[], [], none⟩ "9" "2" "xx" [7] 2
      (by decide) (by decide) (by decide)⟩

/-- C7 (counterexample).  Missing metadata at completion time is answered
with status 400 — a client error — not with the server-error status the
claim requires. -/
theorem C7_missing_metadata_cex :
    (completeUploadHandler hash0 ⟨[], [], none⟩ "x").2 = ⟨400, "File metadata not found"⟩ ∧
    (completeUploadHandler hash0 ⟨[], [], none⟩ "x").2.code ≠ 500 := by
  decide

/-- C7 (amended).  The statuses the receiver actually emits: missing
metadata, a final-file hash mismatch, a chunk hash mismatch, a missing
digest header and a malformed sequence number are all client errors (400);
a missing chunk during reassembly and a ledger-update failure are server
errors (500). -/
theorem C7_status_codes (digest : List Nat → String) :
    (∀ (s : ServerState) (fid : String), lookupMeta s.filesMetadata fid = none →
      (completeUploadHandler digest s fid).2 = ⟨400, "File metadata not found"⟩) ∧
    (∀ (s : ServerState) (fid : String) (m : FileMetadata) (fs' : Fs) (i : Int),
      lookupMeta s.filesMetadata fid = some m → fid = m.id →
      foldChunks fid ("final_" ++ m.fileName)
        (fsWrite s.fs ("final_" ++ m.fileName) []) 1 m.totalChunks.toNat = (fs', some i) →
      (completeUploadHandler digest s fid).2 = ⟨500, "Chunk file does not exist"⟩) ∧
    (∀ (s : ServerState) (fid : String) (m : FileMetadata) (fs' : Fs),
      lookupMeta s.filesMetadata fid = some m → fid = m.id →
      foldChunks fid ("final_" ++ m.fileName)
        (fsWrite s.fs ("final_" ++ m.fileName) []) 1 m.totalChunks.toNat = (fs', none) →
      digest ((fsRead fs' ("final_" ++ m.fileName)).getD []) ≠ m.fileHash →
      (completeUploadHandler digest s fid).2 = ⟨400, "Final file hash mismatch"⟩) ∧
    (∀ (s : ServerState) (fid : String) (m : FileMetadata) (fs' : Fs),
      lookupMeta s.filesMetadata fid = some m → fid = m.id →
      foldChunks fid ("final_" ++ m.fileName)
        (fsWrite s.fs ("final_" ++ m.fileName) []) 1 m.totalChunks.toNat = (fs', none) →
      digest ((fsRead fs' ("final_" ++ m.fileName)).getD []) = m.fileHash →
      s.ledger = none →
      (completeUploadHandler digest s fid).2 = ⟨500, "Error updating fileInfoDB"⟩) ∧
    (∀ (s : ServerState) (fid numStr : String) (body : List Nat),
      (uploadChunkHandler digest s fid numStr "" body).2 = ⟨400, "Chunk hash is missing"⟩) ∧
    (∀ (s : ServerState) (fid numStr claimed : String) (body : List Nat),
      claimed ≠ "" → atoi numStr = none →
      (uploadChunkHandler digest s fid numStr claimed body).2 =
        ⟨400, "Chunk hash number is missing"⟩) ∧
    (∀ (s : ServerState) (fid numStr claimed : String) (body : List Nat) (num : Int),
      atoi numStr = some num → claimed ≠ "" → digest body ≠ claimed →
      (uploadChunkHandler digest s fid numStr claimed body).2 =
        ⟨400, "Chunk hash mismatch"⟩) := by
  refine ⟨?_, ?_, ?_, ?_, ?_, ?_, ?_⟩
  · intro s fid hmeta
    rw [complete_eq_of_no_meta digest s fid hmeta]
  · intro s fid m fs' i hmeta hid hfold
    rw [complete_eq_of_fold_missing digest s fid m fs' i hmeta hid hfold]
  · intro s fid m fs' hmeta hid hfold hdig
    rw [complete_eq_of_hash_mismatch digest s fid m fs' hmeta hid hfold hdig]
  · intro s fid m fs' hmeta hid hfold hdig hledg
    rw [complete_eq_of_ledger_missing digest s fid m fs' hmeta hid hfold hdig hledg]
  · intro s fid numStr body
    simp [uploadChunkHandler]
  · intro s fid numStr claimed body hne hnone
    simp only [uploadChunkHandler, hnone]
    rw [if_neg hne]
  · intro s fid numStr claimed body num hnum hne hmis
    simp only [uploadChunkHandler, hnum]
    rw [if_neg hne, if_pos hmis]

theorem C7_status_codes_witness :
    ((completeUploadHandler hash0 ⟨[], [], none⟩ "x").2 =
      ⟨400, "File metadata not found"⟩) ∧
    ((completeUploadHandler hash0 ⟨[("1", mW)], [], none⟩ "1").2 =
      ⟨500, "Chunk file does not exist"⟩) ∧
    ((completeUploadHandler hash0 ⟨[("1", mBad)], [("1_part_1", [5])], none⟩ "1").2 =
      ⟨400, "Final file hash mismatch"⟩) ∧
    ((completeUploadHandler hash0 ⟨[("1", mW)], [("1_part_1", [1, 2, 3])], none⟩ "1").2 =
      ⟨500, "Error updating fileInfoDB"⟩) ∧
    ((uploadChunkHandler hash0 ⟨[], [], none⟩ "1" "1" "" [5]).2 =
      ⟨400, "Chunk hash is missing"⟩) ∧
    ((uploadChunkHandler hash0 ⟨[], [], none⟩ "1" "abc" "zz" [5]).2 =
      ⟨400, "Chunk hash number is missing"⟩) ∧
    ((uploadChunkHandler hash0 ⟨[], [], none⟩ "1" "1" "zz" [5]).2 =
      ⟨400, "Chunk hash mismatch"⟩) :=
  ⟨(C7_status_codes hash0).1 ⟨[], [], none⟩ "x" (by decide),
    (C7_status_codes hash0).2.1 ⟨[("1", mW)], [], none⟩ "1" mW [("final_f", [])] 1
      (by decide) (by decide) (by decide),
    (C7_status_codes hash0).2.2.1 ⟨[("1", mBad)], [("1_part_1", [5])], none⟩ "1" mBad
      [("final_f", [5])] (by decide) (by decide) (by decide) (by decide),
    (C7_status_codes hash0).2.2.2.1 ⟨[("1", mW)], [("1_part_1", [1, 2, 3])], none⟩ "1" mW
      [("final_f", [1, 2, 3])] (by decide) (by decide) (by decide) (by decide) rfl,
    (C7_status_codes hash0).2.2.2.2.1 ⟨[], [], none⟩ "1" "1" [5],
    (C7_status_codes hash0).2.2.2.2.2.1 ⟨[], [], none⟩ "1" "abc" "zz" [5]
      (by decide) (by decide),
    (C7_status_codes hash0).2.2.2.2.2.2 ⟨[], [], none⟩ "1" "1" "zz" [5] 1
      (by decide) (by decide) (by decide)⟩

/-- C10.  A zero-size file is rejected by the sender orchestrator before any
network request: no registration, chunk or completion request is issued, and
the process exits with an error. -/
theorem C10_zero_size_rejected (digest : List Nat → String) (file : List Nat)
    (fileName : String) (reg : RegistrationResponse)
    (h : (file.length : Int) = 0) :
    senderMain digest file fileName reg = ([], false) := by
  simp only [senderMain]
  rw [if_pos h]

theorem C10_zero_size_rejected_witness :
    ((([] : List Nat).length : Int) = 0) ∧
    senderMain hash0 [] "f" ⟨"1", 3, 1⟩ = ([], false) :=
  ⟨rfl, C10_zero_size_rejected hash0 [] "f" ⟨"1", 3, 1⟩ rfl⟩
